import Mathlib

/-!
Verification development for the Slark image viewer's animation playback core.

The definitions below are a shallow embedding of the Rust sources:
* `src/ui/view.rs` — the `View` widget: frame cache, hand-off channel consumer,
  clock-driven catch-up loop in `paint`, `event` (AnimFrame tick), `ViewData`;
* `src/ui/image.rs` — the older `Image` widget (`next_frame`, `current_frame`);
* `src/formats/gif.rs` and `src/formats/png.rs` — `open_async` decode-session
  start and the PNG RGB/tRNS pixel loop;
* `src/ui/zoom.rs` — `Zoom::scale_factor` / `Zoom::turn_the_knob`.

Machine integers: Rust `i64`/`u64` values are modelled as `Int`/`Nat`; where a
cast or wrap-around matters (the `u64 → i64` cast of the AnimFrame interval,
the `u64` multiply in the APNG delay computation) it is made explicit by
`% 2 ^ 64` and `i64ofU64`.  The mpsc channel as seen by the consumer is
modelled by the finite list of frames the producer will still deliver before
closing (`some pending`), with `none` meaning the consumer has already
observed disconnection (`self.source = None` in the source).  Rust `panic!`
and `.expect(msg)` failures on the calling thread are modelled as
`Except.error msg` (or `Option.none` where noted): a reachable `Except.error`
is a crash of the calling thread, not a graceful result.
-/

namespace Slark

/-- Wire-format frame handed from the decode thread to the widget
(struct `FrameSource` in `src/ui/view.rs`). The RGBA byte buffer is a list. -/
structure FrameSource where
  data : List Nat
  width : Nat
  height : Nat
  delay : Int
deriving DecidableEq, Repr

/-- A cached frame (struct `Frame` in `src/ui/view.rs`); the GPU `img` bitmap
is modelled by the byte data it was created from. -/
structure Frame where
  delay : Int
  width : Nat
  height : Nat
  img : List Nat
deriving DecidableEq, Repr

/-- Model of `RenderContext::make_image`: the bitmap is identified with its
source bytes (resource-creation failure is out of the model). -/
def make_image (_width _height : Nat) (data : List Nat) : List Nat := data

/-- Playback-relevant state of the `View` widget (`src/ui/view.rs`).
`source = some pending` is an open channel whose producer will deliver
`pending` and then close; `source = none` is the observed-closed channel. -/
structure View where
  source : Option (List FrameSource)
  image_size : Option (Nat × Nat)
  frames : List Frame
  current_frame : Nat
  current_delay : Int
  need_legit_layout : Bool
deriving DecidableEq, Repr

/-- Translation of `View::load_frame` (`src/ui/view.rs:329-353`): if the
channel has not been observed closed, block on `recv`; on a frame, `make_image`
it, append to the cache and set `image_size` from the first frame; on
disconnection set `source` to `None`. Returns whether a frame was loaded. -/
def load_frame (s : View) : View × Bool :=
  match s.source with
  | none => (s, false)
  | some [] => ({ s with source := none }, false)
  | some (src :: rest) =>
    let img := make_image src.width src.height src.data
    let frames := s.frames ++ [⟨src.delay, src.width, src.height, img⟩]
    let image_size := if s.image_size.isNone then some (src.width, src.height) else s.image_size
    ({ s with source := some rest, frames := frames, image_size := image_size }, true)

/-- Translation of `View::next_frame` (`src/ui/view.rs:365-382`): pull once,
return `None` if the cache is empty, otherwise advance `current_frame` by one
(wrapping to 0 at or past the end), add the new current frame's delay to
`current_delay`, and return the new current frame's bitmap.  The index
computed by the wrap is always in range, so the Rust indexing cannot fail
here and `getD` is exact. -/
def next_frame (s : View) : View × Option (List Nat) :=
  let s1 := (load_frame s).1
  if s1.frames.length = 0 then (s1, none)
  else
    let cf0 := s1.current_frame + 1
    let cf := if s1.frames.length ≤ cf0 then 0 else cf0
    let fr := s1.frames.getD cf ⟨0, 0, 0, []⟩
    ({ s1 with current_frame := cf, current_delay := s1.current_delay + fr.delay }, some fr.img)

/-- Translation of `View::current_frame` (`src/ui/view.rs:355-363`): pull once
(unconditionally), then return the cached frame at `current_frame` if the
cache is nonempty.  A result of `Option.none` at the outer layer models the
Rust indexing panic when `current_frame` is out of bounds of a nonempty
cache; `some (s, none)` is the graceful empty-cache answer. -/
def current_frame_op (s : View) : Option (View × Option (List Nat)) :=
  let s1 := (load_frame s).1
  if s1.frames.isEmpty then some (s1, none)
  else
    match s1.frames.get? s1.current_frame with
    | none => none
    | some fr => some (s1, some fr.img)

/-- Rust `u64` → `i64` cast (`*interval as i64` in `View::event`). -/
def i64ofU64 (n : Nat) : Int :=
  if n % 2 ^ 64 < 2 ^ 63 then ((n % 2 ^ 64 : Nat) : Int)
  else ((n % 2 ^ 64 : Nat) : Int) - 2 ^ 64

/-- Translation of the `Event::AnimFrame` arm of `View::event`
(`src/ui/view.rs:386-404`): subtract the elapsed interval from
`current_delay` and clear `need_legit_layout` once a size is known. -/
def event_anim_frame (interval : Nat) (s : View) : View :=
  let s := { s with current_delay := s.current_delay - i64ofU64 interval }
  if s.need_legit_layout && s.image_size.isSome then { s with need_legit_layout := false } else s

/-- The catch-up loop of `View::paint` (`src/ui/view.rs:448-460`), with
explicit fuel: while `current_delay <= 0`, call `next_frame`, paint the
returned bitmap if any, and break as soon as `current_frame` equals the
index held at loop entry (`start`).  Returns the final state and the list
of bitmaps painted, or `none` if the fuel ran out before the loop exited. -/
def paint_loop (fuel : Nat) (start : Nat) (s : View) : Option (View × List (List Nat)) :=
  match fuel with
  | 0 => none
  | fuel + 1 =>
    if s.current_delay ≤ 0 then
      let r := next_frame s
      let painted := r.2.toList
      if r.1.current_frame = start then some (r.1, painted)
      else
        match paint_loop fuel start r.1 with
        | none => none
        | some (s2, rest) => some (s2, painted ++ rest)
    else some (s, [])

/-- Fuel that will be shown sufficient for `paint_loop` to exit on its own. -/
def loop_bound (s : View) : Nat :=
  match s.source with
  | some pending => 2 * pending.length + s.frames.length + 3
  | none => s.frames.length + 2

/-- Translation of the animation part of `View::paint`
(`src/ui/view.rs:434-461`): if `current_delay > 0` paint the current frame
(which still performs one pull), otherwise run the catch-up loop.  The outer
`Option.none` models a panic inside `current_frame`; the loop is run with
`loop_bound` fuel. -/
def paint (s : View) : Option (View × List (List Nat)) :=
  if 0 < s.current_delay then
    match current_frame_op s with
    | none => none
    | some (s1, img) => some (s1, img.toList)
  else
    paint_loop (loop_bound s) s.current_frame s

/-- A freshly constructed `View` as built by every arm of `View::new`
(`src/ui/view.rs:93-321`): producer started, zero frames cached,
`current_frame = 0`, `current_delay = 0`. -/
def fresh_view (pending : List FrameSource) (size : Option (Nat × Nat)) : View :=
  { source := some pending, image_size := size, frames := [],
    current_frame := 0, current_delay := 0, need_legit_layout := false }

/-- Validity of the frame index: in range once anything is cached, pinned at
0 while the cache is empty.  Every `View` reachable from `View::new`
satisfies this. -/
def viewInv (s : View) : Prop :=
  s.current_frame < s.frames.length ∨ (s.frames.length = 0 ∧ s.current_frame = 0)

instance instDecViewInv (s : View) : Decidable (viewInv s) := by
  unfold viewInv; exact inferInstance

/-- Number of further loop iterations needed to walk the frame index from
`cf` forward (with wrap at `len`) until it revisits `start`. -/
def cyc_measure (len start cf : Nat) : Nat :=
  if cf < start then start - cf else len - cf + start

/-- Playback state of the older `Image` widget (`src/ui/image.rs`). -/
structure Image where
  source : Option (List FrameSource)
  frames : List Frame
  current_frame : Nat
  current_delay : Int
deriving DecidableEq, Repr

/-- Translation of `Image::next_frame` (`src/ui/image.rs:185-212`): one pull
attempt, then an unguarded advance `current_frame += 1` with reset to 0 only
on exact equality with the cache length, then an indexing of the cache.  The
outer `Option.none` models the Rust panic when that indexing is out of
bounds (which happens on an empty cache). -/
def image_next_frame (s : Image) : Option (Image × List Nat) :=
  let s1 : Image :=
    match s.source with
    | none => s
    | some [] => { s with source := none }
    | some (src :: rest) =>
      { s with source := some rest,
               frames := s.frames ++
                 [⟨src.delay, src.width, src.height, make_image src.width src.height src.data⟩] }
  let cf0 := s1.current_frame + 1
  let cf := if cf0 = s1.frames.length then 0 else cf0
  match s1.frames.get? cf with
  | none => none
  | some fr =>
    some ({ s1 with current_frame := cf, current_delay := s1.current_delay + fr.delay }, fr.img)

/-- Translation of `Image::current_frame` (`src/ui/image.rs:177-183`): call
`next_frame` when the cache is empty, otherwise return the cached frame at
`current_frame` (an indexing that panics when out of bounds). -/
def image_current_frame (s : Image) : Option (Image × List Nat) :=
  if s.frames.isEmpty then image_next_frame s
  else
    match s.frames.get? s.current_frame with
    | none => none
    | some fr => some (s, fr.img)

/-- The extensions `View::new` (`src/ui/view.rs:93-321`) compares the path
extension against, byte-for-byte (hence case-sensitively). -/
def supported_extensions : List String := ["gif", "webp", "jpg", "jpeg", "png"]

/-- The decoder that each arm of `View::new` starts. -/
inductive DecoderKind where
  | gif
  | webp
  | jpeg
  | png
deriving DecidableEq, Repr

/-- The extension dispatch of `View::new` (`src/ui/view.rs:93-321`): the
`jpg` and `jpeg` extensions share one decoder; any other extension, and a
missing extension, hit `panic!("Not a supported extension!")`, modelled as
`Except.error` (a crash of the calling thread, not a graceful skip). -/
def view_new_dispatch (ext : Option String) : Except String DecoderKind :=
  match ext with
  | some e =>
    if e = "gif" then Except.ok DecoderKind.gif
    else if e = "webp" then Except.ok DecoderKind.webp
    else if e = "jpg" then Except.ok DecoderKind.jpeg
    else if e = "jpeg" then Except.ok DecoderKind.jpeg
    else if e = "png" then Except.ok DecoderKind.png
    else Except.error "Not a supported extension!"
  | none => Except.error "Not a supported extension!"

/-- Abstract outcome of opening a GIF file: `header_ok` is whether
`read_info` succeeds, `frames` are the frames the decode loop would send. -/
structure GifFile where
  header_ok : Bool
  width : Nat
  height : Nat
  frames : List FrameSource
deriving DecidableEq, Repr

/-- Translation of `formats/gif.rs::open_async` (and the GIF arm of
`View::new`, `src/ui/view.rs:102-110`): `File::open(path).expect("Failed to
open file")` and `read_info().expect("Failed to read info")` run on the
calling thread before the decode thread is spawned, so both failures are
modelled as `Except.error` (a panic of the caller).  `none` for the file
means the open failed.  On success the caller receives the channel, modelled
by the list of frames the decode thread will deliver before closing, plus
the logical-screen size. -/
def gif_open_async (file : Option GifFile) : Except String (List FrameSource × Nat × Nat) :=
  match file with
  | none => Except.error "Failed to open file"
  | some f =>
    if f.header_ok then Except.ok (f.frames, f.width, f.height)
    else Except.error "Failed to read info"

/-- Abstract outcome of opening a PNG file, as `formats/png.rs::open_async`
and the PNG arm of `View::new` see it. -/
structure PngFile where
  header_ok : Bool
  frames : List FrameSource
deriving DecidableEq, Repr

/-- Translation of `formats/png.rs::open_async` (and the PNG arm of
`View::new`): `File::open` still panics on the calling thread, but
`read_info().unwrap()` runs inside the spawned decode thread, so a header
failure only kills that thread — the sender is dropped and the caller's
receiver yields zero frames (`Except.ok []`). -/
def png_open_async (file : Option PngFile) : Except String (List FrameSource) :=
  match file with
  | none => Except.error "Failed to open file"
  | some f => if f.header_ok then Except.ok f.frames else Except.ok []

/-- One iteration of the `ColorType::Rgb` byte loop of
`formats/png.rs::open_async` (lines 111-134): push the byte; after every
third byte compare the last three pushed bytes against the first three tRNS
bytes and push alpha 0 on a match, 255 otherwise (255 unconditionally when
no tRNS chunk is present).  The accumulator is `(data, i)`. -/
def png_rgb_step (trns : Option (List Nat)) (acc : List Nat × Nat) (b : Nat) :
    List Nat × Nat :=
  let data := acc.1 ++ [b]
  let i := acc.2 + 1
  if i = 3 then
    match trns with
    | some t =>
      let len := data.length
      if t.getD 0 0 = data.getD (len - 3) 0 ∧ t.getD 1 0 = data.getD (len - 2) 0 ∧
          t.getD 2 0 = data.getD (len - 1) 0 then
        (data ++ [0], 0)
      else (data ++ [255], 0)
    | none => (data ++ [255], 0)
  else (data, i)

/-- The full `ColorType::Rgb` byte loop of `formats/png.rs::open_async`. -/
def png_rgb_to_rgba (trns : Option (List Nat)) (bytes : List Nat) : List Nat :=
  (bytes.foldl (png_rgb_step trns) ([], 0)).1

/-- One iteration of the PNG byte loop in the PNG arm of `View::new`
(`src/ui/view.rs:274-284`): push the byte and, after every third byte, a
hardcoded alpha of 40 — no tRNS handling at all. -/
def view_png_pack_step (acc : List Nat × Nat) (b : Nat) : List Nat × Nat :=
  let data := acc.1 ++ [b]
  let i := acc.2 + 1
  if i = 3 then (data ++ [40], 0) else (data, i)

/-- The full PNG byte loop of the PNG arm of `View::new`
(`src/ui/view.rs:274-293`). -/
def view_png_pack (bytes : List Nat) : List Nat :=
  (bytes.foldl view_png_pack_step ([], 0)).1

/-- Specification-side RGBA output for a list of RGB pixels under a
transparency key: the transparent-color pixel gets alpha 0, all others 255. -/
def rgba_spec (t : Nat × Nat × Nat) : List (Nat × Nat × Nat) → List Nat
  | [] => []
  | p :: rest => p.1 :: p.2.1 :: p.2.2 :: (if t = p then 0 else 255) :: rgba_spec t rest

/-- Flatten a list of RGB pixels into the raw byte stream the decoder sees. -/
def flatten_pixels : List (Nat × Nat × Nat) → List Nat
  | [] => []
  | p :: rest => p.1 :: p.2.1 :: p.2.2 :: flatten_pixels rest

/-- Translation of the APNG delay computation of `formats/png.rs::open_async`
(lines 74-83): without frame control the delay stays 0; with frame control
`(num, den)` (both `u16` in the source, hence the `< 65536` hypotheses in the
theorems), the denominator is replaced by 100 when declared 0, and the delay
is the `u64` product `1_000_000_000 * num` (wrapping, hence `% 2 ^ 64`)
divided by the denominator, then cast `as i64`. -/
def apng_delay (frame_control : Option (Nat × Nat)) : Int :=
  match frame_control with
  | none => 0
  | some fc =>
    let den0 := fc.2
    let den := if den0 = 0 then 100 else den0
    i64ofU64 (1000000000 * fc.1 % 2 ^ 64 / den)

/-- The zoom state of `src/ui/zoom.rs`: `knob` is the per-image knob,
`extra` the global zoom. -/
structure Zoom where
  knob : Int
  extra : Int
deriving DecidableEq, Repr

/-- Exact-arithmetic model of `f64::powi`: the float `1.1f64.powi(k)` is
modelled as the exact rational power, with a negative exponent taking the
reciprocal. -/
def powi (base : ℚ) (k : Int) : ℚ :=
  if 0 ≤ k then base ^ k.toNat else (base ^ (-k).toNat)⁻¹

/-- Translation of `Zoom::extra_scale` (`src/ui/zoom.rs:52-58`). -/
def extra_scale (z : Zoom) (scale : ℚ) : ℚ :=
  if z.extra ≠ 0 then scale * powi (101 / 100) z.extra else scale

/-- Translation of `Zoom::scale_factor` (`src/ui/zoom.rs:36-50`): `1.1 ^ knob`
with the zoom-out direction clamped below at `0.1`, then the global factor. -/
def scale_factor (z : Zoom) : ℚ :=
  let scale :=
    if z.knob < 0 then
      let s := powi (11 / 10) z.knob
      if s < 1 / 10 then 1 / 10 else s
    else if 0 < z.knob then powi (11 / 10) z.knob
    else 1
  extra_scale z scale

/-- Translation of `Zoom::turn_the_knob` (`src/ui/zoom.rs:60-68`): apply the
delta, then revert it if the scale factor did not change. -/
def turn_the_knob (z : Zoom) (delta : Int) : Zoom :=
  let old_knob := z.knob
  let old_scale := scale_factor z
  let z1 : Zoom := { z with knob := z.knob + delta }
  if scale_factor z1 = old_scale then { z1 with knob := old_knob } else z1

/-- The widget data of `View` (`src/ui/view.rs:36-40`). -/
structure ViewData where
  selected : Bool
  zoom : Int
deriving DecidableEq, Repr

/-- Translation of `ViewData::scale_factor` (`src/ui/view.rs:53-65`). -/
def viewdata_scale_factor (d : ViewData) : ℚ :=
  if d.zoom < 0 then
    let s := powi (11 / 10) d.zoom
    if s < 1 / 10 then 1 / 10 else s
  else if 0 < d.zoom then powi (11 / 10) d.zoom
  else 1

/-- Translation of `ViewData::zoom` (`src/ui/view.rs:43-51`). -/
def viewdata_zoom (d : ViewData) (delta : Int) : ViewData :=
  let old_zoom := d.zoom
  let old_scale := viewdata_scale_factor d
  let d1 : ViewData := { d with zoom := d.zoom + delta }
  if viewdata_scale_factor d1 = old_scale then { d1 with zoom := old_zoom } else d1

/-- The three-frame producer of the concrete scenario of claim C2: per-frame
delays 100ms, 50ms, 200ms in nanoseconds. -/
def c2_pending : List FrameSource :=
  [⟨[], 1, 1, 100000000⟩, ⟨[], 1, 1, 50000000⟩, ⟨[], 1, 1, 200000000⟩]

/-- The C2 scenario run: `tick(120ms)` on a fresh view, then `paint`. -/
def c2_result : Option (View × List (List Nat)) :=
  paint (event_anim_frame 120000000 (fresh_view c2_pending none))

/-- A mid-playback state used against claim C3: two frames cached (delays
100ms and 50ms), one more (200ms) still in the channel, positive remaining
delay of 50ms, positive per-frame delays throughout (so the zero-delay-loop
guard is never involved). -/
def c3_state : View :=
  { source := some [⟨[], 1, 1, 200000000⟩], image_size := some (1, 1),
    frames := [⟨100000000, 1, 1, []⟩, ⟨50000000, 1, 1, []⟩],
    current_frame := 0, current_delay := 50000000, need_legit_layout := false }

/-- Claim C3's split run: `tick(30ms); paint; tick(30ms); paint`. -/
def c3_split : Option (View × List (List Nat)) :=
  (paint (event_anim_frame 30000000 c3_state)).bind
    (fun r => paint (event_anim_frame 30000000 r.1))

/-- Claim C3's combined run: `tick(60ms); paint`. -/
def c3_combined : Option (View × List (List Nat)) :=
  paint (event_anim_frame 60000000 c3_state)

/-- A view with one frame cached and one more still in the channel, used
against claim C6's "no pull when the cache is nonempty". -/
def c6_state : View :=
  { source := some [⟨[], 1, 1, 0⟩], image_size := some (1, 1),
    frames := [⟨0, 1, 1, []⟩], current_frame := 0, current_delay := 5,
    need_legit_layout := false }

/-- An `Image` that never decoded a frame and whose producer channel is
closed, used against claim C7. -/
def c7_image : Image :=
  { source := some [], frames := [], current_frame := 0, current_delay := 0 }

/-- A fresh view over an all-zero-delay two-frame animation with a delay
deficit, used to witness claim C1's termination theorem. -/
def c1_witness_state : View :=
  { source := some [⟨[], 1, 1, 0⟩, ⟨[], 1, 1, 0⟩], image_size := none,
    frames := [], current_frame := 0, current_delay := -5,
    need_legit_layout := false }

/-- A fully decoded single-zero-delay-frame view whose next advance wraps
straight back to the start index, used to witness claim C1's break clause. -/
def c1_break_state : View :=
  { source := none, image_size := some (1, 1), frames := [⟨0, 1, 1, []⟩],
    current_frame := 0, current_delay := 0, need_legit_layout := false }

/-- A `View` that never decoded a frame and whose producer channel is closed
(pending list empty), used to witness claim C7's theorem. -/
def c7_view : View :=
  { source := some [], image_size := none, frames := [], current_frame := 0,
    current_delay := 0, need_legit_layout := false }

/-- Claim C2 counterexample: the code lands on frame index 0 with
accumulated delay -20ms, not on index 1 with +30ms as the claim states.
After the single pull of frame 0 the cache has length 1, so the advance
wraps straight back to index 0, which equals the start index, and the
guard breaks the loop with the 100ms delay of frame 0 already credited. -/
theorem claim2_counterexample :
    c2_result.map (fun r => (r.1.current_frame, r.1.current_delay)) = some (0, -20000000) ∧
    ((0 : Nat), (-20000000 : Int)) ≠ ((1 : Nat), (30000000 : Int)) := by
  exact ⟨by decide, by decide⟩

/-- Claim C2 (amended): `tick(120ms)` then `paint` from the fresh `Empty`
state over delays [100ms, 50ms, 200ms] leaves `current_frame_index = 0`
and `accumulated_delay_ns = -20ms`, with exactly one frame pulled into the
cache, because the wrap of the one-frame cache revisits the start index
and the loop-break guard fires after a single iteration. -/
theorem claim2_amended :
    c2_result.map (fun r => (r.1.current_frame, r.1.current_delay, r.1.frames.length)) =
      some (0, -20000000, 1) := by
  decide

/-- Claim C4 counterexample: an unrecognized extension (or a missing one)
makes `View::new` take the `panic!("Not a supported extension!")` arm,
modelled by `Except.error`; there is no graceful ok-with-no-frames outcome,
so the application does not "continue running". -/
theorem claim4_counterexample :
    view_new_dispatch (some "txt") = Except.error "Not a supported extension!" ∧
    (view_new_dispatch (some "txt")).isOk = false ∧
    view_new_dispatch none = Except.error "Not a supported extension!" := by
  exact ⟨rfl, rfl, rfl⟩

/-- Claim C4 (amended): for every input path whose extension is not a
case-sensitive match against gif/webp/jpg/jpeg/png, or that has no
extension, `View::new` panics with "Not a supported extension!" — the
caller gets no frames, but via a crash of the calling thread, not a
diagnostic-and-continue. -/
theorem claim4_amended (ext : Option String)
    (h : ∀ e : String, ext = some e → e ∉ supported_extensions) :
    view_new_dispatch ext = Except.error "Not a supported extension!" := by
  cases ext with
  | none => rfl
  | some e =>
    have he := h e rfl
    simp only [supported_extensions, List.mem_cons, List.not_mem_nil, or_false, not_or] at he
    obtain ⟨h1, h2, h3, h4, h5⟩ := he
    simp [view_new_dispatch, h1, h2, h3, h4, h5]

/-- Claim C4 witness: the theorem applied to the concrete extension "txt". -/
theorem claim4_witness :
    view_new_dispatch (some "txt") = Except.error "Not a supported extension!" :=
  claim4_amended (some "txt") (by intro e he; cases he; decide)

/-- Claim C5 counterexample: a GIF (or PNG) whose file cannot be opened
does not hand the caller an immediately-closed producer: `File::open`'s
`.expect` panics on the calling thread, modelled by `Except.error`. -/
theorem claim5_counterexample :
    gif_open_async none = Except.error "Failed to open file" ∧
    (gif_open_async none).isOk = false ∧
    png_open_async none = Except.error "Failed to open file" := by
  exact ⟨rfl, rfl, rfl⟩

/-- Claim C5 (amended): an unopenable file panics the calling thread for
every format, and a GIF header-parse failure does too (`read_info` runs
before the decode thread is spawned); only the PNG-style in-thread header
failure yields the claimed immediately-closed producer with zero frames. -/
theorem claim5_amended :
    gif_open_async none = Except.error "Failed to open file" ∧
    (∀ f : GifFile, f.header_ok = false →
      gif_open_async (some f) = Except.error "Failed to read info") ∧
    png_open_async none = Except.error "Failed to open file" ∧
    (∀ f : PngFile, f.header_ok = false → png_open_async (some f) = Except.ok []) := by
  refine ⟨rfl, ?_, rfl, ?_⟩
  · intro f h
    simp [gif_open_async, h]
  · intro f h
    simp [png_open_async, h]

/-- Claim C5 witness: the theorem's conditional clauses applied to concrete
failing files. -/
theorem claim5_witness :
    gif_open_async (some ⟨false, 1, 1, []⟩) = Except.error "Failed to read info" ∧
    png_open_async (some ⟨false, []⟩) = Except.ok [] :=
  ⟨claim5_amended.2.1 ⟨false, 1, 1, []⟩ rfl, claim5_amended.2.2.2 ⟨false, []⟩ rfl⟩

/-- Claim C9: with frame control `(num, den)` (both `u16`), the emitted APNG
delay is exactly `num * 1e9 / den` in integer arithmetic with `den`
replaced by 100 when declared 0 (the `u64` product cannot wrap for `u16`
inputs and the quotient fits `i64`); frames without frame control get 0. -/
theorem claim9 :
    (∀ num den : Nat, num < 65536 → den < 65536 →
      apng_delay (some (num, den)) =
        ((1000000000 * num / (if den = 0 then 100 else den) : Nat) : Int)) ∧
    apng_delay none = 0 := by
  refine ⟨?_, rfl⟩
  intro num den hn _hd
  unfold apng_delay i64ofU64
  have h1 : 1000000000 * num % 2 ^ 64 = 1000000000 * num := Nat.mod_eq_of_lt (by omega)
  have h2 : 1000000000 * num / (if den = 0 then 100 else den) ≤ 1000000000 * num :=
    Nat.div_le_self _ _
  have h3 : 1000000000 * num / (if den = 0 then 100 else den) % 2 ^ 64 =
      1000000000 * num / (if den = 0 then 100 else den) := Nat.mod_eq_of_lt (by omega)
  simp only [h1, h3]
  rw [if_pos (by omega)]

/-- Claim C9 witness: the theorem applied at the concrete frame control
`(num, den) = (3, 0)`, exercising the zero-denominator default of 100. -/
theorem claim9_witness :
    apng_delay (some (3, 0)) =
      ((1000000000 * 3 / (if (0 : Nat) = 0 then 100 else 0) : Nat) : Int) :=
  claim9.1 3 0 (by decide) (by decide)

/-- A pull attempt never touches the playback position or the accumulator. -/
theorem load_frame_preserves (s : View) :
    (load_frame s).1.current_frame = s.current_frame ∧
    (load_frame s).1.current_delay = s.current_delay := by
  rcases hs : s.source with _ | (_ | ⟨x, rest⟩) <;> simp [load_frame, hs]

/-- A pull attempt leaves the cache as it was or appends a single frame. -/
theorem load_frame_frames (s : View) :
    (load_frame s).1.frames = s.frames ∨
    ∃ f, (load_frame s).1.frames = s.frames ++ [f] := by
  rcases hs : s.source with _ | (_ | ⟨x, rest⟩) <;> simp [load_frame, hs]

/-- A pull attempt on an observed-closed channel is the identity. -/
theorem load_frame_closed {s : View} (h : s.source = none) : (load_frame s).1 = s := by
  simp [load_frame, h]

/-- The `u64 → i64` interval cast is the identity below `2 ^ 63`. -/
theorem i64ofU64_small {n : Nat} (h : n < 2 ^ 63) : i64ofU64 n = (n : Int) := by
  unfold i64ofU64
  rw [Nat.mod_eq_of_lt (by omega), if_pos h]

/-- The interval cast is additive as long as the sum does not overflow. -/
theorem i64ofU64_add {a b : Nat} (h : a + b < 2 ^ 63) :
    i64ofU64 a + i64ofU64 b = i64ofU64 (a + b) := by
  rw [i64ofU64_small (by omega), i64ofU64_small (by omega), i64ofU64_small h]
  push_cast
  ring

/-- Claim C3 counterexample: from `c3_state`, `tick(30ms); paint; tick(30ms);
paint` and `tick(60ms); paint` both reach frame index 1 with 40ms of delay
left, but the split run has observed producer exhaustion while the combined
run has not — the final `PlaybackState`s differ in `exhausted`.  All
per-frame delays in `c3_state` are strictly positive and neither run takes
the break-at-start-index exit, so the difference is not attributable to the
zero-delay-loop guard. -/
theorem claim3_counterexample :
    c3_split.map (fun r => (r.1.current_frame, r.1.current_delay, r.1.source.isNone)) =
        some (1, 40000000, true) ∧
    c3_combined.map (fun r => (r.1.current_frame, r.1.current_delay, r.1.source.isNone)) =
        some (1, 40000000, false) := by
  exact ⟨by decide, by decide⟩

/-- Claim C3 (amended): the accumulator itself is linear — `tick(a)` then
`tick(b)` equals `tick(a+b)` when no paint runs in between (for intervals
whose sum fits `i64`) — and a deficit is never dropped: `next_frame` adds
the new current frame's delay onto the (possibly negative) accumulator.
Interleaving the paint catch-up between the ticks, however, may change how
many pulls happen and hence the `exhausted` flag or wrap length, so the
full `PlaybackState` can differ from the combined tick's. -/
theorem claim3_amended :
    (∀ (s : View) (a b : Nat), a + b < 2 ^ 63 →
      event_anim_frame b (event_anim_frame a s) = event_anim_frame (a + b) s) ∧
    (∀ s : View, (load_frame s).1.frames.length ≠ 0 →
      (next_frame s).1.current_delay =
        s.current_delay +
          ((load_frame s).1.frames.getD
            (if (load_frame s).1.frames.length ≤ (load_frame s).1.current_frame + 1 then 0
             else (load_frame s).1.current_frame + 1) ⟨0, 0, 0, []⟩).delay) := by
  constructor
  · intro s a b h
    obtain ⟨src, isz, fr, cf, cd, nl⟩ := s
    cases nl <;> cases isz <;>
      simp [event_anim_frame, View.mk.injEq, ← i64ofU64_add h] <;> omega
  · intro s h
    have hd := (load_frame_preserves s).2
    simp only [next_frame]
    rw [if_neg h]
    simp [hd]

/-- Claim C3 witness: the linearity clause at the split `1 + 2` on a fresh
view, and the deficit-carry clause at the concrete state `c6_state`. -/
theorem claim3_witness :
    event_anim_frame 2 (event_anim_frame 1 (fresh_view [] none)) =
        event_anim_frame (1 + 2) (fresh_view [] none) ∧
    (next_frame c6_state).1.current_delay =
      c6_state.current_delay +
        ((load_frame c6_state).1.frames.getD
          (if (load_frame c6_state).1.frames.length ≤ (load_frame c6_state).1.current_frame + 1
           then 0 else (load_frame c6_state).1.current_frame + 1) ⟨0, 0, 0, []⟩).delay :=
  ⟨claim3_amended.1 (fresh_view [] none) 1 2 (by decide),
   claim3_amended.2 c6_state (by decide)⟩

/-- Claim C7 counterexample: on the older `Image` widget the claim fails —
with zero frames ever decoded and the channel closed, `current()` (which
falls through to `next_frame`) performs an out-of-bounds index of the empty
cache, i.e. a panic, modelled by `none`. -/
theorem claim7_counterexample :
    image_current_frame c7_image = none ∧ image_next_frame c7_image = none :=
  ⟨rfl, rfl⟩

/-- Claim C7 (amended): on `View`, zero frames decoded with the channel
closed makes `current()` return no bitmap and the paint catch-up loop
terminate after one iteration painting nothing, both without panic and
without moving the frame index or the accumulator; the `tick` event still
subtracts the elapsed interval from the accumulator (so the playback state
is not literally unchanged).  On `Image`, the same scenario panics. -/
theorem claim7_amended (s : View) (h1 : s.frames = [])
    (h2 : s.source = none ∨ s.source = some []) :
    current_frame_op s = some ((load_frame s).1, none) ∧
    (load_frame s).1.frames = [] ∧
    (load_frame s).1.current_frame = s.current_frame ∧
    (load_frame s).1.current_delay = s.current_delay ∧
    (∀ fuel : Nat, paint_loop (fuel + 1) s.current_frame s =
      some (if s.current_delay ≤ 0 then (load_frame s).1 else s, [])) ∧
    (∀ e : Nat, (event_anim_frame e s).current_frame = s.current_frame ∧
      (event_anim_frame e s).frames = []) := by
  have hl : (load_frame s).1.frames = [] := by
    rcases h2 with h | h <;> simp [load_frame, h, h1]
  have hcf := (load_frame_preserves s).1
  have hcd := (load_frame_preserves s).2
  have hnext : next_frame s = ((load_frame s).1, none) := by
    simp [next_frame, hl]
  refine ⟨?_, hl, hcf, hcd, ?_, ?_⟩
  · simp [current_frame_op, hl]
  · intro fuel
    by_cases hd : s.current_delay ≤ 0
    · simp [paint_loop, hd, hnext, hcf]
    · simp only [paint_loop, if_neg hd]
  · intro e
    simp only [event_anim_frame]
    split <;> simp [h1]

/-- Claim C7 witness: the theorem applied to the concrete zero-frame,
closed-channel view `c7_view`. -/
theorem claim7_witness :
    current_frame_op c7_view = some ((load_frame c7_view).1, none) ∧
    paint_loop 1 c7_view.current_frame c7_view =
      some (if c7_view.current_delay ≤ 0 then (load_frame c7_view).1 else c7_view, []) ∧
    (event_anim_frame 7 c7_view).current_frame = c7_view.current_frame :=
  ⟨(claim7_amended c7_view rfl (Or.inr rfl)).1,
   (claim7_amended c7_view rfl (Or.inr rfl)).2.2.2.2.1 0,
   ((claim7_amended c7_view rfl (Or.inr rfl)).2.2.2.2.2 7).1⟩

/-- Claim C6 counterexample: `c6_state` has one frame cached, yet
`current_frame` still pulls — the cache grows to two frames and the state
is mutated, refuting "when at least one frame is already cached, current()
returns it without pulling and without mutating". -/
theorem claim6_counterexample :
    (current_frame_op c6_state).map (fun r => r.1.frames.length) = some 2 ∧
    ((current_frame_op c6_state).map (fun r => r.1) = some c6_state → False) := by
  exact ⟨by decide, by decide⟩

/-- Claim C6 (amended): `current()` performs one pull attempt
unconditionally (a no-op exactly when the channel is already observed
closed), then returns the cached frame at `current_frame_index` — which,
when the cache was already nonempty, is the same frame as before the pull —
and never changes `current_frame_index` or the accumulator, and never
panics on any index-valid view. -/
theorem claim6_amended (s : View) (h : viewInv s) :
    current_frame_op s =
      some ((load_frame s).1,
        ((load_frame s).1.frames.get? s.current_frame).map (fun fr => fr.img)) ∧
    (load_frame s).1.current_frame = s.current_frame ∧
    (load_frame s).1.current_delay = s.current_delay ∧
    (s.source = none → (load_frame s).1 = s) ∧
    (s.frames ≠ [] →
      (load_frame s).1.frames.get? s.current_frame = s.frames.get? s.current_frame) := by
  have hcf := (load_frame_preserves s).1
  have hcd := (load_frame_preserves s).2
  have hget : s.frames ≠ [] →
      (load_frame s).1.frames.get? s.current_frame = s.frames.get? s.current_frame := by
    intro hne
    have hlt : s.current_frame < s.frames.length := by
      rcases h with h | ⟨h0, _⟩
      · exact h
      · exact absurd (List.length_eq_zero.mp h0) hne
    rcases load_frame_frames s with hf | ⟨f, hf⟩
    · rw [hf]
    · rw [hf, List.get?_append hlt]
  refine ⟨?_, hcf, hcd, fun hn => load_frame_closed hn, hget⟩
  by_cases hE : (load_frame s).1.frames.isEmpty = true
  · have hnil : (load_frame s).1.frames = [] := by
      cases hc : (load_frame s).1.frames
      · rfl
      · rw [hc] at hE
        simp [List.isEmpty] at hE
    simp [current_frame_op, hE, hnil]
  · have hlt : s.current_frame < (load_frame s).1.frames.length := by
      have hne : (load_frame s).1.frames ≠ [] := by
        intro hc
        rw [hc] at hE
        simp [List.isEmpty] at hE
      rcases load_frame_frames s with hf | ⟨f, hf⟩
      · rcases h with hh | ⟨h0, _⟩
        · rw [hf]
          exact hh
        · rw [hf] at hne
          exact absurd (List.length_eq_zero.mp h0) hne
      · rcases h with hh | ⟨_, h0⟩
        · rw [hf]
          simp only [List.length_append, List.length_singleton]
          omega
        · rw [hf, h0]
          simp only [List.length_append, List.length_singleton]
          omega
    have hfr := List.get?_eq_get hlt
    simp only [current_frame_op, hcf, if_neg hE, hfr]
    simp

/-- Claim C6 witness: the theorem applied to the concrete one-frame-cached,
one-frame-pending view `c6_state`. -/
theorem claim6_witness :
    current_frame_op c6_state =
      some ((load_frame c6_state).1,
        ((load_frame c6_state).1.frames.get? c6_state.current_frame).map (fun fr => fr.img)) :=
  (claim6_amended c6_state (by decide)).1

/-- Pushing a byte with zero bytes of the current pixel pending. -/
theorem png_rgb_step_i0 (trns : Option (List Nat)) (acc : List Nat) (b : Nat) :
    png_rgb_step trns (acc, 0) b = (acc ++ [b], 1) := by
  simp [png_rgb_step]

/-- Pushing a byte with one byte of the current pixel pending. -/
theorem png_rgb_step_i1 (trns : Option (List Nat)) (acc : List Nat) (b : Nat) :
    png_rgb_step trns (acc, 1) b = (acc ++ [b], 2) := by
  simp [png_rgb_step]

/-- The last three entries of `acc ++ [r, g, b]` are `r`, `g`, `b`. -/
theorem getD_last_three (acc : List Nat) (r g b : Nat) :
    (acc ++ [r, g, b]).getD (acc.length + 3 - 3) 0 = r ∧
    (acc ++ [r, g, b]).getD (acc.length + 3 - 2) 0 = g ∧
    (acc ++ [r, g, b]).getD (acc.length + 3 - 1) 0 = b := by
  refine ⟨?_, ?_, ?_⟩
  · rw [show acc.length + 3 - 3 = acc.length + 0 by omega,
      List.getD_append_right acc [r, g, b] 0 (acc.length + 0) (by omega)]
    simp
  · rw [show acc.length + 3 - 2 = acc.length + 1 by omega,
      List.getD_append_right acc [r, g, b] 0 (acc.length + 1) (by omega)]
    simp
  · rw [show acc.length + 3 - 1 = acc.length + 2 by omega,
      List.getD_append_right acc [r, g, b] 0 (acc.length + 2) (by omega)]
    simp

/-- Completing a pixel: the third push compares the pixel against the first
three tRNS bytes and appends the alpha byte. -/
theorem png_rgb_step_pixel (t0 t1 t2 : Nat) (ts : List Nat) (acc : List Nat) (r g b : Nat) :
    png_rgb_step (some (t0 :: t1 :: t2 :: ts))
        (png_rgb_step (some (t0 :: t1 :: t2 :: ts))
          (png_rgb_step (some (t0 :: t1 :: t2 :: ts)) (acc, 0) r) g) b =
      (acc ++ [r, g, b, if (t0, t1, t2) = (r, g, b) then 0 else 255], 0) := by
  rw [png_rgb_step_i0, png_rgb_step_i1]
  have e3 : acc ++ [r] ++ [g] ++ [b] = acc ++ [r, g, b] := by simp
  have elen : (acc ++ [r] ++ [g] ++ [b]).length = acc.length + 3 := by simp
  obtain ⟨e0, e1, e2⟩ := getD_last_three acc r g b
  simp only [png_rgb_step, e3, elen, e0, e1, e2]
  norm_num [Prod.ext_iff]
  split_ifs with h1 h2 h2 <;> simp_all

/-- The RGB byte loop, run from any accumulator over flattened pixels,
appends exactly the keyed RGBA stream. -/
theorem png_rgb_fold (t0 t1 t2 : Nat) (ts : List Nat) (pixels : List (Nat × Nat × Nat)) :
    ∀ acc : List Nat,
      List.foldl (png_rgb_step (some (t0 :: t1 :: t2 :: ts))) (acc, 0) (flatten_pixels pixels) =
        (acc ++ rgba_spec (t0, t1, t2) pixels, 0) := by
  induction pixels with
  | nil =>
    intro acc
    simp [flatten_pixels, rgba_spec]
  | cons p rest ih =>
    intro acc
    obtain ⟨r, g, b⟩ := p
    show List.foldl _ _ (r :: g :: b :: flatten_pixels rest) = _
    rw [List.foldl_cons, List.foldl_cons, List.foldl_cons, png_rgb_step_pixel, ih]
    simp [rgba_spec]

/-- Claim C8 counterexample: the PNG arm of `View::new`
(`src/ui/view.rs:274-293`) gives every pixel the hardcoded alpha 40 — a
pixel matching any declared transparent color gets alpha 40, not 0, and
non-matching pixels get 40, not 255. -/
theorem claim8_counterexample :
    view_png_pack [1, 2, 3] = [1, 2, 3, 40] ∧ (40 : Nat) ≠ 0 ∧ (40 : Nat) ≠ 255 := by
  exact ⟨by decide, by decide, by decide⟩

/-- Claim C8 (amended): in `formats/png.rs::open_async` the claim holds —
for RGB color type with a declared tRNS key, every output pixel matching
the key's first three bytes gets alpha 0 and every other pixel alpha 255;
the PNG arm of `View::new` (`src/ui/view.rs`) instead writes alpha 40
unconditionally. -/
theorem claim8_amended (t0 t1 t2 : Nat) (ts : List Nat) (pixels : List (Nat × Nat × Nat)) :
    png_rgb_to_rgba (some (t0 :: t1 :: t2 :: ts)) (flatten_pixels pixels) =
      rgba_spec (t0, t1, t2) pixels := by
  unfold png_rgb_to_rgba
  rw [png_rgb_fold]
  simp

/-- Unfolding of the exact-arithmetic `1.1 ^ -25`. -/
theorem powi_neg25 : powi (11 / 10) (-25 : Int) = ((11 / 10 : ℚ) ^ (25 : Nat))⁻¹ := rfl

/-- Unfolding of the exact-arithmetic `1.1 ^ -26`. -/
theorem powi_neg26 : powi (11 / 10) (-26 : Int) = ((11 / 10 : ℚ) ^ (26 : Nat))⁻¹ := rfl

/-- Unfolding of the exact-arithmetic `1.1 ^ -24`. -/
theorem powi_neg24 : powi (11 / 10) (-24 : Int) = ((11 / 10 : ℚ) ^ (24 : Nat))⁻¹ := rfl

/-- Knob -25 is the first clamped position: `1.1 ^ -25 < 0.1`. -/
theorem sf_neg25 : scale_factor ⟨-25, 0⟩ = 1 / 10 := by
  simp only [scale_factor, extra_scale]
  norm_num [powi_neg25]

/-- Knob -26 is clamped as well. -/
theorem sf_neg26 : scale_factor ⟨-26, 0⟩ = 1 / 10 := by
  simp only [scale_factor, extra_scale]
  norm_num [powi_neg26]

/-- Knob -24 is not clamped: `1.1 ^ -24 > 0.1`. -/
theorem sf_neg24_ne : scale_factor ⟨-24, 0⟩ ≠ 1 / 10 := by
  simp only [scale_factor, extra_scale]
  norm_num [powi_neg24]

/-- Turning the knob further out at the clamp boundary is reverted. -/
theorem turn_neg25_down : turn_the_knob ⟨-25, 0⟩ (-1) = ⟨-25, 0⟩ := by
  norm_num [turn_the_knob, sf_neg26, sf_neg25]

/-- Turning the knob back in from the clamp boundary is accepted. -/
theorem turn_neg25_up : turn_the_knob ⟨-25, 0⟩ 1 = ⟨-24, 0⟩ := by
  norm_num [turn_the_knob, sf_neg25, sf_neg24_ne]

/-- Claim C10: every knob turn either changes the scale factor or leaves the
knob exactly as it was (and whenever the scale factor is unchanged, the
whole state is); the same holds for `ViewData::zoom`; at the clamp boundary
(knob -25, the first clamped position reachable through `turn_the_knob`),
repeated zoom-out turns never accumulate and a single opposite turn
immediately changes the scale. -/
theorem claim10 :
    (∀ (z : Zoom) (d : Int),
      scale_factor (turn_the_knob z d) ≠ scale_factor z ∨ (turn_the_knob z d).knob = z.knob) ∧
    (∀ (z : Zoom) (d : Int),
      scale_factor (turn_the_knob z d) = scale_factor z → turn_the_knob z d = z) ∧
    (∀ (v : ViewData) (d : Int),
      viewdata_scale_factor (viewdata_zoom v d) ≠ viewdata_scale_factor v ∨
        (viewdata_zoom v d).zoom = v.zoom) ∧
    (∀ n : Nat, (fun z => turn_the_knob z (-1))^[n] ⟨-25, 0⟩ = (⟨-25, 0⟩ : Zoom)) ∧
    scale_factor (turn_the_knob ⟨-25, 0⟩ 1) ≠ scale_factor ⟨-25, 0⟩ := by
  refine ⟨?_, ?_, ?_, ?_, ?_⟩
  · intro z d
    unfold turn_the_knob
    by_cases hc : scale_factor { z with knob := z.knob + d } = scale_factor z
    · right
      simp [hc]
    · left
      simp [hc]
  · intro z d h
    unfold turn_the_knob at h ⊢
    by_cases hc : scale_factor { z with knob := z.knob + d } = scale_factor z
    · simp only [if_pos hc]
    · rw [if_neg hc] at h
      exact absurd h hc
  · intro v d
    unfold viewdata_zoom
    by_cases hc : viewdata_scale_factor { v with zoom := v.zoom + d } = viewdata_scale_factor v
    · right
      simp [hc]
    · left
      simp [hc]
  · intro n
    induction n with
    | zero => rfl
    | succ n ih => rw [Function.iterate_succ_apply, turn_neg25_down, ih]
  · rw [turn_neg25_up, sf_neg25]
    exact sf_neg24_ne

/-- Claim C10 witness: the revert clause applied at the concrete zoom state
`(knob, extra) = (0, 0)` with delta 0, whose hypothesis holds by
computation. -/
theorem claim10_witness : turn_the_knob ⟨0, 0⟩ 0 = (⟨0, 0⟩ : Zoom) :=
  claim10.2.1 ⟨0, 0⟩ 0 rfl

/-- The cyclic distance to the start index is at least 1 for an in-range
current index. -/
theorem cyc_measure_pos {len start cf : Nat} (hcf : cf < len) :
    1 ≤ cyc_measure len start cf := by
  unfold cyc_measure
  split <;> omega

/-- The cyclic distance to the start index is at most the cache length. -/
theorem cyc_measure_le {len start cf : Nat} (hcf : cf < len) (hstart : start < len) :
    cyc_measure len start cf ≤ len := by
  unfold cyc_measure
  split <;> omega

/-- One wrap-advance strictly decreases the cyclic distance to the start
index, as long as the advance does not land on it. -/
theorem cyc_measure_step {len start cf : Nat} (hcf : cf < len) (hstart : start < len)
    (hne : (if len ≤ cf + 1 then 0 else cf + 1) ≠ start) :
    cyc_measure len start (if len ≤ cf + 1 then 0 else cf + 1) <
      cyc_measure len start cf := by
  unfold cyc_measure
  split_ifs at hne ⊢ <;> omega

/-- `next_frame` on an observed-closed channel with a nonempty cache: pure
wrap-advance plus delay credit, no cache change. -/
theorem next_frame_closed (s : View) (hsrc : s.source = none)
    (hlen : ¬ s.frames.length = 0) :
    next_frame s =
      ({ s with
          current_frame :=
            if s.frames.length ≤ s.current_frame + 1 then 0 else s.current_frame + 1,
          current_delay := s.current_delay +
            (s.frames.getD
              (if s.frames.length ≤ s.current_frame + 1 then 0 else s.current_frame + 1)
              ⟨0, 0, 0, []⟩).delay },
        some ((s.frames.getD
          (if s.frames.length ≤ s.current_frame + 1 then 0 else s.current_frame + 1)
          ⟨0, 0, 0, []⟩).img)) := by
  have hload : (load_frame s).1 = s := load_frame_closed hsrc
  simp only [next_frame, hload]
  rw [if_neg hlen]

/-- Termination of the catch-up loop once the channel is closed: with fuel
at least the cyclic distance to the start index, the loop exits (by positive
delay or by revisiting the start index) and the final index is in range. -/
theorem paint_loop_closed :
    ∀ (fuel start : Nat) (s : View), s.source = none →
      s.current_frame < s.frames.length → start < s.frames.length →
      cyc_measure s.frames.length start s.current_frame ≤ fuel →
      ∃ r, paint_loop fuel start s = some r ∧ viewInv r.1 := by
  intro fuel
  induction fuel with
  | zero =>
    intro start s _ hcf _ hm
    exact absurd hm (by have := @cyc_measure_pos s.frames.length start s.current_frame hcf; omega)
  | succ n ih =>
    intro start s hsrc hcf hstart hm
    by_cases hd : s.current_delay ≤ 0
    · have hlen : ¬ s.frames.length = 0 := by omega
      have hnext := next_frame_closed s hsrc hlen
      have hcf' :
          (if s.frames.length ≤ s.current_frame + 1 then 0 else s.current_frame + 1) <
            s.frames.length := by
        split <;> omega
      by_cases hbr :
          (if s.frames.length ≤ s.current_frame + 1 then 0 else s.current_frame + 1) = start
      · refine ⟨({ s with
            current_frame :=
              if s.frames.length ≤ s.current_frame + 1 then 0 else s.current_frame + 1,
            current_delay := s.current_delay +
              (s.frames.getD
                (if s.frames.length ≤ s.current_frame + 1 then 0 else s.current_frame + 1)
                ⟨0, 0, 0, []⟩).delay },
          [(s.frames.getD
            (if s.frames.length ≤ s.current_frame + 1 then 0 else s.current_frame + 1)
            ⟨0, 0, 0, []⟩).img]), ?_, Or.inl hcf'⟩
        show paint_loop (n + 1) start s = _
        simp only [paint_loop, if_pos hd, hnext]
        rw [if_pos hbr]
        simp
      · have hm' : cyc_measure s.frames.length start
            (if s.frames.length ≤ s.current_frame + 1 then 0 else s.current_frame + 1) ≤ n := by
          have := cyc_measure_step hcf hstart hbr
          omega
        obtain ⟨⟨r1, r2⟩, hr, hrinv⟩ := ih start
          { s with
            current_frame :=
              if s.frames.length ≤ s.current_frame + 1 then 0 else s.current_frame + 1,
            current_delay := s.current_delay +
              (s.frames.getD
                (if s.frames.length ≤ s.current_frame + 1 then 0 else s.current_frame + 1)
                ⟨0, 0, 0, []⟩).delay }
          hsrc hcf' hstart hm'
        refine ⟨(r1, (s.frames.getD
            (if s.frames.length ≤ s.current_frame + 1 then 0 else s.current_frame + 1)
            ⟨0, 0, 0, []⟩).img :: r2), ?_, hrinv⟩
        show paint_loop (n + 1) start s = _
        simp only [paint_loop, if_pos hd, hnext]
        rw [if_neg hbr]
        rw [hr]
        simp
    · refine ⟨(s, []), ?_, Or.inl hcf⟩
      show paint_loop (n + 1) start s = _
      simp only [paint_loop]
      rw [if_neg hd]

/-- `next_frame` observing channel closure with a nonempty cache: the pull
sets `source` to `None`, then the usual wrap-advance happens. -/
theorem next_frame_drain (s : View) (hsrc : s.source = some [])
    (hlen : ¬ s.frames.length = 0) :
    next_frame s =
      ({ s with
          source := none,
          current_frame :=
            if s.frames.length ≤ s.current_frame + 1 then 0 else s.current_frame + 1,
          current_delay := s.current_delay +
            (s.frames.getD
              (if s.frames.length ≤ s.current_frame + 1 then 0 else s.current_frame + 1)
              ⟨0, 0, 0, []⟩).delay },
        some ((s.frames.getD
          (if s.frames.length ≤ s.current_frame + 1 then 0 else s.current_frame + 1)
          ⟨0, 0, 0, []⟩).img)) := by
  simp only [next_frame, load_frame, hsrc]
  rw [if_neg hlen]

/-- `next_frame` pulling a frame from the channel: the frame is appended to
the cache (possibly establishing `image_size`), then the wrap-advance runs
against the grown cache. -/
theorem next_frame_pull (s : View) (x : FrameSource) (rest : List FrameSource)
    (hsrc : s.source = some (x :: rest)) :
    next_frame s =
      ({ s with
          source := some rest,
          image_size :=
            if s.image_size.isNone then some (x.width, x.height) else s.image_size,
          frames := s.frames ++ [Frame.mk x.delay x.width x.height x.data],
          current_frame :=
            if s.frames.length + 1 ≤ s.current_frame + 1 then 0 else s.current_frame + 1,
          current_delay := s.current_delay +
            ((s.frames ++ [Frame.mk x.delay x.width x.height x.data]).getD
              (if s.frames.length + 1 ≤ s.current_frame + 1 then 0 else s.current_frame + 1)
              ⟨0, 0, 0, []⟩).delay },
        some (((s.frames ++ [Frame.mk x.delay x.width x.height x.data]).getD
          (if s.frames.length + 1 ≤ s.current_frame + 1 then 0 else s.current_frame + 1)
          ⟨0, 0, 0, []⟩).img)) := by
  simp only [next_frame, load_frame, hsrc, make_image]
  rw [if_neg (by simp)]
  simp

/-- Termination of the catch-up loop while the producer is still streaming:
with fuel covering the pending frames plus one full lap of the final cache,
the loop exits on its own and the final frame index is valid. -/
theorem paint_loop_streaming :
    ∀ (pending : List FrameSource) (fuel start : Nat) (s : View),
      s.source = some pending →
      ((s.current_frame < s.frames.length ∧ start < s.frames.length) ∨
        (s.frames.length = 0 ∧ s.current_frame = 0 ∧ start = 0)) →
      2 * pending.length + s.frames.length + 3 ≤ fuel →
      ∃ r, paint_loop fuel start s = some r ∧ viewInv r.1 := by
  intro pending
  induction pending with
  | nil =>
    intro fuel start s hsrc hI hfuel
    obtain ⟨m, rfl⟩ : ∃ m, fuel = m + 1 := ⟨fuel - 1, by omega⟩
    by_cases hd : s.current_delay ≤ 0
    · rcases hI with ⟨hcf, hstart⟩ | ⟨hlen0, hcf0, hstart0⟩
      · have hlen : ¬ s.frames.length = 0 := by omega
        have hnext := next_frame_drain s hsrc hlen
        have hcf' :
            (if s.frames.length ≤ s.current_frame + 1 then 0 else s.current_frame + 1) <
              s.frames.length := by
          split <;> omega
        by_cases hbr :
            (if s.frames.length ≤ s.current_frame + 1 then 0 else s.current_frame + 1) = start
        · refine ⟨({ s with
              source := none,
              current_frame :=
                if s.frames.length ≤ s.current_frame + 1 then 0 else s.current_frame + 1,
              current_delay := s.current_delay +
                (s.frames.getD
                  (if s.frames.length ≤ s.current_frame + 1 then 0 else s.current_frame + 1)
                  ⟨0, 0, 0, []⟩).delay },
            [(s.frames.getD
              (if s.frames.length ≤ s.current_frame + 1 then 0 else s.current_frame + 1)
              ⟨0, 0, 0, []⟩).img]), ?_, Or.inl hcf'⟩
          show paint_loop (m + 1) start s = _
          simp only [paint_loop, if_pos hd, hnext]
          rw [if_pos hbr]
          simp
        · obtain ⟨⟨r1, r2⟩, hr, hrinv⟩ := paint_loop_closed m start
            { s with
              source := none,
              current_frame :=
                if s.frames.length ≤ s.current_frame + 1 then 0 else s.current_frame + 1,
              current_delay := s.current_delay +
                (s.frames.getD
                  (if s.frames.length ≤ s.current_frame + 1 then 0 else s.current_frame + 1)
                  ⟨0, 0, 0, []⟩).delay }
            rfl hcf' hstart
            (by
              have h1 := cyc_measure_le hcf' hstart
              simp only [List.length_nil] at hfuel
              show cyc_measure s.frames.length start
                (if s.frames.length ≤ s.current_frame + 1 then 0
                 else s.current_frame + 1) ≤ m
              omega)
          refine ⟨(r1, (s.frames.getD
              (if s.frames.length ≤ s.current_frame + 1 then 0 else s.current_frame + 1)
              ⟨0, 0, 0, []⟩).img :: r2), ?_, hrinv⟩
          show paint_loop (m + 1) start s = _
          simp only [paint_loop, if_pos hd, hnext]
          rw [if_neg hbr, hr]
          simp
      · have hnext : next_frame s = ({ s with source := none }, none) := by
          simp only [next_frame, load_frame, hsrc]
          rw [if_pos hlen0]
        refine ⟨({ s with source := none }, []), ?_, Or.inr ⟨hlen0, hcf0⟩⟩
        show paint_loop (m + 1) start s = _
        simp only [paint_loop, if_pos hd, hnext]
        rw [if_pos (by simp [hcf0, hstart0])]
        simp
    · have hvi : viewInv s := by
        rcases hI with ⟨h1, _⟩ | ⟨h1, h2, _⟩
        · exact Or.inl h1
        · exact Or.inr ⟨h1, h2⟩
      refine ⟨(s, []), ?_, hvi⟩
      show paint_loop (m + 1) start s = _
      simp only [paint_loop]
      rw [if_neg hd]
  | cons x rest ih =>
    intro fuel start s hsrc hI hfuel
    obtain ⟨m, rfl⟩ : ∃ m, fuel = m + 1 := ⟨fuel - 1, by omega⟩
    by_cases hd : s.current_delay ≤ 0
    · have hnext := next_frame_pull s x rest hsrc
      have hcf'lt :
          (if s.frames.length + 1 ≤ s.current_frame + 1 then 0 else s.current_frame + 1) <
            s.frames.length + 1 := by
        split <;> omega
      by_cases hbr :
          (if s.frames.length + 1 ≤ s.current_frame + 1 then 0 else s.current_frame + 1) =
            start
      · refine ⟨({ s with
            source := some rest,
            image_size :=
              if s.image_size.isNone then some (x.width, x.height) else s.image_size,
            frames := s.frames ++ [Frame.mk x.delay x.width x.height x.data],
            current_frame :=
              if s.frames.length + 1 ≤ s.current_frame + 1 then 0 else s.current_frame + 1,
            current_delay := s.current_delay +
              ((s.frames ++ [Frame.mk x.delay x.width x.height x.data]).getD
                (if s.frames.length + 1 ≤ s.current_frame + 1 then 0
                 else s.current_frame + 1) ⟨0, 0, 0, []⟩).delay },
          [((s.frames ++ [Frame.mk x.delay x.width x.height x.data]).getD
            (if s.frames.length + 1 ≤ s.current_frame + 1 then 0 else s.current_frame + 1)
            ⟨0, 0, 0, []⟩).img]), ?_, Or.inl ?_⟩
        · show paint_loop (m + 1) start s = _
          simp only [paint_loop, if_pos hd, hnext]
          rw [if_pos hbr]
          simp
        · simpa using hcf'lt
      · have hstart' : start < s.frames.length + 1 := by
          rcases hI with ⟨_, hstart⟩ | ⟨hlen0, hcf0, hstart0⟩
          · omega
          · exfalso
            apply hbr
            rw [hlen0, hcf0, hstart0]
            simp
        have hfuel' :
            2 * rest.length +
              (s.frames ++ [Frame.mk x.delay x.width x.height x.data]).length + 3 ≤ m := by
          simp only [List.length_cons] at hfuel
          simp only [List.length_append, List.length_singleton]
          omega
        obtain ⟨⟨r1, r2⟩, hr, hrinv⟩ := ih m start
          { s with
            source := some rest,
            image_size :=
              if s.image_size.isNone then some (x.width, x.height) else s.image_size,
            frames := s.frames ++ [Frame.mk x.delay x.width x.height x.data],
            current_frame :=
              if s.frames.length + 1 ≤ s.current_frame + 1 then 0 else s.current_frame + 1,
            current_delay := s.current_delay +
              ((s.frames ++ [Frame.mk x.delay x.width x.height x.data]).getD
                (if s.frames.length + 1 ≤ s.current_frame + 1 then 0
                 else s.current_frame + 1) ⟨0, 0, 0, []⟩).delay }
          rfl (Or.inl ⟨by simpa using hcf'lt, by simpa using hstart'⟩) hfuel'
        refine ⟨(r1, ((s.frames ++ [Frame.mk x.delay x.width x.height x.data]).getD
            (if s.frames.length + 1 ≤ s.current_frame + 1 then 0 else s.current_frame + 1)
            ⟨0, 0, 0, []⟩).img :: r2), ?_, hrinv⟩
        show paint_loop (m + 1) start s = _
        simp only [paint_loop, if_pos hd, hnext]
        rw [if_neg hbr, hr]
        simp
    · have hvi : viewInv s := by
        rcases hI with ⟨h1, _⟩ | ⟨h1, h2, _⟩
        · exact Or.inl h1
        · exact Or.inr ⟨h1, h2⟩
      refine ⟨(s, []), ?_, hvi⟩
      show paint_loop (m + 1) start s = _
      simp only [paint_loop]
      rw [if_neg hd]

/-- Claim C1: whenever the catch-up loop of `paint` runs
(`current_delay <= 0`), it terminates for any finite animation — including
one composed entirely of zero-delay frames — within `loop_bound` iterations,
leaving `current_frame` at a valid index of the cached-frame sequence; and
the moment an advance lands on the frame index held at loop entry, the loop
stops immediately. -/
theorem claim1 :
    (∀ s : View, viewInv s →
      ∃ r, paint_loop (loop_bound s) s.current_frame s = some r ∧ viewInv r.1) ∧
    (∀ (fuel start : Nat) (s : View), s.current_delay ≤ 0 →
      (next_frame s).1.current_frame = start →
      paint_loop (fuel + 1) start s = some ((next_frame s).1, (next_frame s).2.toList)) := by
  constructor
  · intro s hinv
    cases hsrc : s.source with
    | some pending =>
      apply paint_loop_streaming pending (loop_bound s) s.current_frame s hsrc
      · rcases hinv with h | ⟨h1, h2⟩
        · exact Or.inl ⟨h, h⟩
        · exact Or.inr ⟨h1, h2, h2⟩
      · simp [loop_bound, hsrc]
    | none =>
      by_cases hd : s.current_delay ≤ 0
      · rcases hinv with h | ⟨h1, h2⟩
        · apply paint_loop_closed (loop_bound s) s.current_frame s hsrc h h
          have hm := cyc_measure_le h h
          simp only [loop_bound, hsrc]
          omega
        · have hload : (load_frame s).1 = s := load_frame_closed hsrc
          have hnext : next_frame s = (s, none) := by
            simp [next_frame, hload, h1]
          obtain ⟨m, hm⟩ : ∃ m, loop_bound s = m + 1 :=
            ⟨loop_bound s - 1, by simp [loop_bound, hsrc]⟩
          refine ⟨(s, []), ?_, Or.inr ⟨h1, h2⟩⟩
          rw [hm]
          simp only [paint_loop, if_pos hd, hnext]
          simp
      · obtain ⟨m, hm⟩ : ∃ m, loop_bound s = m + 1 :=
          ⟨loop_bound s - 1, by simp [loop_bound, hsrc]⟩
        refine ⟨(s, []), ?_, hinv⟩
        rw [hm]
        simp only [paint_loop]
        rw [if_neg hd]
  · intro fuel start s hd hbreak
    simp only [paint_loop, if_pos hd]
    rw [if_pos hbreak]

/-- Claim C1 witness: termination on a concrete fresh view over two
zero-delay frames with a delay deficit, and the immediate break on a
concrete fully decoded single-zero-delay-frame view. -/
theorem claim1_witness :
    (paint_loop (loop_bound c1_witness_state) c1_witness_state.current_frame
      c1_witness_state).isSome = true ∧
    paint_loop 1 0 c1_break_state =
      some ((next_frame c1_break_state).1, (next_frame c1_break_state).2.toList) := by
  constructor
  · obtain ⟨r, hr, _⟩ := claim1.1 c1_witness_state (by decide)
    rw [hr]
    rfl
  · exact claim1.2 0 0 c1_break_state (by decide) (by decide)

/-- A freshly constructed view satisfies the index invariant. -/
theorem viewInv_fresh (pending : List FrameSource) (size : Option (Nat × Nat)) :
    viewInv (fresh_view pending size) :=
  Or.inr ⟨rfl, rfl⟩

/-- The AnimFrame tick preserves the index invariant. -/
theorem viewInv_event (e : Nat) (s : View) (h : viewInv s) :
    viewInv (event_anim_frame e s) := by
  have h1 : (event_anim_frame e s).current_frame = s.current_frame := by
    simp only [event_anim_frame]
    split <;> rfl
  have h2 : (event_anim_frame e s).frames = s.frames := by
    simp only [event_anim_frame]
    split <;> rfl
  unfold viewInv at *
  rw [h1, h2]
  exact h

/-- A pull attempt preserves the index invariant. -/
theorem viewInv_load (s : View) (h : viewInv s) : viewInv (load_frame s).1 := by
  have hcf := (load_frame_preserves s).1
  unfold viewInv at *
  rcases load_frame_frames s with hf | ⟨f, hf⟩
  · rw [hf, hcf]
    exact h
  · rw [hf, hcf]
    rcases h with h | ⟨h1, h2⟩
    · left
      simp only [List.length_append, List.length_singleton]
      omega
    · left
      rw [h2]
      simp only [List.length_append, List.length_singleton]
      omega

end Slark
